import Mathlib

/-!
Verification development for the PaperSeeker pipeline
(search → keyword filter → summarize → notify).

The Python sources are shallowly embedded: dictionaries become a fixed
record type, Python `int` becomes `Int`, Python truthiness of optional
strings becomes `Option String`, and the blocking I/O calls (HTTP search,
model completion, SMTP) are abstracted as explicit oracle parameters so
that the surrounding pure control flow can be reasoned about.
Python `str.lower` is modelled by `pyLower` below (character-wise
`Char.toLower`, faithful on ASCII; non-cased characters pass through
unchanged in both).
-/

/-- Python's `str.lower`: lowercase every character (`Char.toLower` as in
`String.toLower`, written over the character list so that it reduces in the
kernel). -/
def pyLower (s : String) : String := String.mk (s.data.map Char.toLower)

/-- Python's substring test `needle in hay` on lists of characters:
some index `i` of `hay` starts an occurrence of `needle`. -/
def charsContain (hay needle : List Char) : Bool :=
  (List.range (hay.length + 1)).any fun i => needle.isPrefixOf (hay.drop i)

/-- Python's `needle in hay` on strings (code-point semantics). -/
def strContains (hay needle : String) : Bool :=
  charsContain hay.toList needle.toList

/-- The normalized paper record produced by `OpenAlexSearcher._parse_work`
(src/src/paper_searcher.py lines 248-260) and enriched in place by the later
stages.  Missing dictionary keys are modelled by the defaults used at the
corresponding `paper.get(...)` sites; the annotations added later in the
pipeline (`relevance_score`, `relevance_reason`, `summary_zh`, `summary_en`)
are `Option`-valued, `none` meaning the key is absent. -/
structure Paper where
  id : String := ""
  doi : String := ""
  title : String := ""
  publication_date : String := ""
  journal : String := ""
  authors : String := ""
  abstract : String := ""
  concepts : List String := []
  keywords : List String := []
  relevance_score : Option Int := none
  relevance_reason : Option String := none
  summary_zh : Option String := none
  summary_en : Option String := none
  deriving DecidableEq, Repr

/-- The keyword pre-filter (src/src/paper_filter.py, class `KeywordFilter`):
`keywords` and `exclude_keywords` are stored already lowercased. -/
structure KeywordFilter where
  keywords : List String
  exclude_keywords : List String
  deriving Repr

/-- `KeywordFilter.__init__` (paper_filter.py lines 15-28): both lists are
lowercased on construction. -/
def KeywordFilter.init (kws excl : List String) : KeywordFilter :=
  { keywords := kws.map pyLower
    exclude_keywords := excl.map pyLower }

/-- `KeywordFilter._get_text` (paper_filter.py lines 72-87): join title,
abstract, journal and the concept labels with single spaces.  After
`_parse_work` the `concepts` entry is a list of plain strings, so the
dict-of-display-name branch is the identity here. -/
def KeywordFilter.getText (paper : Paper) : String :=
  String.intercalate (" ")
    ([paper.title, paper.abstract, paper.journal] ++ paper.concepts)

/-- `KeywordFilter._score_paper` (paper_filter.py lines 56-70): +1 per stored
keyword occurring in the lowercased text blob, then for each stored exclusion
keyword occurring there the running score is replaced by `max 0 (score - 2)`. -/
def KeywordFilter.score_paper (kf : KeywordFilter) (paper : Paper) : Int :=
  let text := pyLower (KeywordFilter.getText paper)
  let base : Int :=
    kf.keywords.foldl (fun s k => if strContains text k then s + 1 else s) 0
  kf.exclude_keywords.foldl
    (fun s k => if strContains text k then max 0 (s - 2) else s) base

/-- `KeywordFilter.filter_batch` (paper_filter.py lines 30-54): keep the
papers scoring at least `threshold`, attaching the score to each kept paper. -/
def KeywordFilter.filter_batch (kf : KeywordFilter) (papers : List Paper)
    (threshold : Int) : List Paper :=
  papers.foldl
    (fun acc paper =>
      let score := kf.score_paper paper
      if threshold ≤ score then
        acc ++ [{ paper with relevance_score := some score }]
      else acc)
    []

/-- Number of strings in `ks` occurring case-insensitively in `text`
(specification-side counting used to state the scoring formula). -/
def countCI (text : String) (ks : List String) : Int :=
  ((ks.filter fun k => strContains (pyLower text) (pyLower k)).length : Int)

/-- The concrete record of the end-to-end scenario: only the title is set. -/
def batteryPaper : Paper := { title := "Battery battery research" }


/-- The date-window prelude of `OpenAlexSearcher.search`
(paper_searcher.py lines 55-64).  `daysAgoFn` abstracts `_days_ago`
(lines 262-266, based on `datetime.now()`).  Python truthiness of the
optional date strings is modelled by `Option String`.  When `to_date` is
absent the source's else-branch (line 64, commented "Refresh from_dt")
reassigns `from_dt` instead of assigning `to_dt`, so `to_dt` is still
unbound when used at line 75 and the call raises `UnboundLocalError`;
that crash is modelled as `none` (no window is ever produced). -/
def OpenAlexSearcher.computeDateWindow (daysAgoFn : Nat → String)
    (days_back : Nat) (from_date to_date : Option String) :
    Option (String × String) :=
  let from_dt :=
    match from_date with
    | some f => f
    | none => daysAgoFn days_back
  match to_date with
  | some t => some (from_dt, t)
  | none =>
    let _refreshed := daysAgoFn days_back
    none

/-- One step of the duplicate-removal loop of `OpenAlexSearcher.search`
(paper_searcher.py lines 82-86): state is (`seen_ids` as a list,
`all_papers`); a paper is appended only when its identifier is non-empty
and not seen yet. -/
def OpenAlexSearcher.dedupStep (st : List String × List Paper) (p : Paper) :
    List String × List Paper :=
  if p.id != "" && !(st.1.contains p.id) then (p.id :: st.1, st.2 ++ [p])
  else st

/-- The aggregation loop of `OpenAlexSearcher.search` (lines 66-88): one
batch of parsed results per keyword; the per-batch `new_papers` list that
is then `extend`-ed onto `all_papers` is the same as folding `dedupStep`
over the batch starting from the current state. -/
def OpenAlexSearcher.aggregate (batches : List (List Paper)) :
    List String × List Paper :=
  batches.foldl (fun st batch => batch.foldl OpenAlexSearcher.dedupStep st)
    ([], [])

/-- The final sort of `OpenAlexSearcher.search` (lines 96-97):
`all_papers.sort(key=lambda x: x.get("publication_date", ""), reverse=True)`,
a stable descending sort on the date string. -/
def OpenAlexSearcher.sortByDateDesc (papers : List Paper) : List Paper :=
  List.mergeSort papers fun a b =>
    decide (b.publication_date ≤ a.publication_date)

/-- What `OpenAlexSearcher.search` returns, as a function of the parsed
per-keyword result batches (the network queries themselves are external):
deduplicate across batches, then sort by publication date descending. -/
def OpenAlexSearcher.searchOutput (batches : List (List Paper)) : List Paper :=
  OpenAlexSearcher.sortByDateDesc (OpenAlexSearcher.aggregate batches).2

/-- Recursive reformulation of the duplicate-removal loop, used in proofs:
returns the final seen-list and the kept papers. -/
def dedupRec : List Paper → List String → List String × List Paper
  | [], seen => (seen, [])
  | p :: rest, seen =>
    if p.id != "" && !(seen.contains p.id) then
      let r := dedupRec rest (p.id :: seen)
      (r.1, p :: r.2)
    else dedupRec rest seen

/-- Identifier normalization of `OpenAlexSearcher._parse_work`
(paper_searcher.py line 249):
`work.get("id", "").split("/")[-1] if work.get("id") else ""`;
a missing (`none`) or empty identifier normalizes to the empty string. -/
def OpenAlexSearcher.normalizeId (raw : Option String) : String :=
  match raw with
  | none => ""
  | some s => if s = "" then "" else (s.splitOn ("/")).getLastD ("")

/-- Python's `str.find` on character lists: smallest index where `needle`
starts, or -1. -/
def pyFind (hay needle : List Char) : Int :=
  match (List.range (hay.length + 1)).find? (fun i =>
      needle.isPrefixOf (hay.drop i)) with
  | some i => (i : Int)
  | none => -1

/-- Python's `str.strip()`: remove leading and trailing whitespace. -/
def pyStrip (l : List Char) : List Char :=
  ((l.dropWhile Char.isWhitespace).reverse.dropWhile Char.isWhitespace).reverse

/-- Python's slice `l[a:b]` for the non-negative indices used here. -/
def pySlice (l : List Char) (a b : Int) : List Char :=
  (l.drop a.toNat).take (b - a).toNat

/-- The reply parsing of `AbstractSummarizer._summarize_paper`
(summarizer.py lines 107-123): locate the two fixed section markers
(`content.find`), slice between/after them and strip; a missing marker
yields the empty string for that language.  The literal offsets 6 and 17
are the marker lengths hard-coded in the source. -/
def AbstractSummarizer.parseSummary (content : String) : String × String :=
  let cs := content.data
  let zh_match := pyFind cs ("【中文摘要】").data
  let en_match := pyFind cs ("English Abstract:").data
  let zh :=
    if zh_match ≠ -1 ∧ en_match ≠ -1 then
      pyStrip (pySlice cs (zh_match + 6) en_match)
    else if zh_match ≠ -1 then
      pyStrip (cs.drop (zh_match + 6).toNat)
    else []
  let en :=
    if en_match ≠ -1 then pyStrip (cs.drop (en_match + 17).toNat) else []
  (String.mk zh, String.mk en)

/-- `AbstractSummarizer._summarize_paper` (summarizer.py lines 75-130).
The model-completion call is abstracted as `model` (arguments: title,
authors, journal, abstract), returning the reply content or the message of
a raised exception.  Modelled from the spec: the empty-abstract branch's
dict literal (source line 93) is syntactically scrambled — the entry
`"en": "(Abstract not available)"` is mangled so the module does not even
parse — and the spec's placeholder pair, whose two string literals are the
ones present in the scrambled line, is used for that branch. -/
def AbstractSummarizer.summarize_paper
    (model : String → String → String → String → Except String String)
    (paper : Paper) : String × String :=
  if paper.abstract = "" then ("（原文摘要不可用）", "(Abstract not available)")
  else
    match model paper.title paper.authors paper.journal paper.abstract with
    | Except.ok content => AbstractSummarizer.parseSummary content
    | Except.error e =>
      ("（摘要生成失败）", "(Summary generation failed: " ++ e ++ ")")

/-- `AbstractSummarizer.summarize_batch` (summarizer.py lines 41-73) with a
configured client: each paper gets `summary_zh`/`summary_en` set from
`_summarize_paper` (the dict returned by `_summarize_paper` always carries
both keys, so the `summary.get("en", abstract)` default never fires). -/
def AbstractSummarizer.summarize_batch
    (model : String → String → String → String → Except String String)
    (papers : List Paper) : List Paper :=
  papers.map fun paper =>
    let summary := AbstractSummarizer.summarize_paper model paper
    { paper with
        summary_zh := some summary.1
        summary_en := some summary.2 }

/-- The HTML body built by `EmailSender.send_empty_result`
(email_sender.py lines 63-74): an f-string embedding the supplied date. -/
def EmailSender.send_empty_result_html (date_str : String) : String :=
  "\n        <html><body>\n        <h2>No Relevant Papers Found</h2>\n        <p>Date: "
    ++ date_str
    ++ "</p>\n        <p>No papers matched your research interests today.</p>\n        <p>Consider adjusting your keywords in prompts.yaml for better results.</p>\n        </body></html>\n        "

/-- The pipeline stages `daily_task` (main.py) can perform, in order. -/
inductive Effect where
  | probe
  | searchStage
  | filterStage
  | summarizeStage
  | sendEmpty
  | sendDigest
  deriving DecidableEq, Repr

/-- The document the notification stage delivers: either the rendered
digest over a non-empty record list, or the distinct no-matches notice. -/
inductive EmailDoc where
  | digest (papers : List Paper) (date_str : String)
  | emptyNotice (date_str : String)
  deriving DecidableEq, Repr

/-- Configuration values read by `daily_task` (main.py): probe outcome,
LLM-credential presence, keyword lists, thresholds and the two date strings
(`datetime.now()` for the digest, `now - 1 day` for the empty notice). -/
structure RunConfig where
  probeOk : Bool
  llm_api_key : Bool
  research_keywords : List String
  exclude_keywords : List String
  relevance_threshold : Int
  summarize_threshold : Int
  dateToday : String
  dateYesterday : String

/-- The external services `daily_task` consults, abstracted as values:
the searcher's result list, the AI-filter scoring call
(`PaperFilter.filter_single` on title and abstract, returning score and
reason) and the summarizer model call. -/
structure NetOracles where
  searchResult : List Paper
  aiScore : String → String → Int × String
  aiSummary : String → String → String → String → Except String String

/-- `PaperFilter.filter_batch` (paper_filter.py lines 120-160) with a
configured client: per paper, `filter_single` (abstracted as `aiScore`)
yields a score and reason; papers scoring at least `threshold` are kept
with both attached. -/
def PaperFilter.filter_batch (aiScore : String → String → Int × String)
    (papers : List Paper) (threshold : Int) : List Paper :=
  papers.foldl
    (fun acc paper =>
      let result := aiScore paper.title paper.abstract
      if threshold ≤ result.1 then
        acc ++
          [{ paper with
              relevance_score := some result.1
              relevance_reason := some result.2 }]
      else acc)
    []

/-- The filtering stage of `daily_task` (main.py lines 67-103): with an LLM
credential, keyword pre-filter at threshold 1 then AI refinement at the
configured relevance threshold; otherwise keyword filter alone at the
configured relevance threshold. -/
def mainFilteredPapers (cfg : RunConfig) (o : NetOracles) : List Paper :=
  if cfg.llm_api_key then
    let kf := KeywordFilter.init cfg.research_keywords cfg.exclude_keywords
    let candidates := kf.filter_batch o.searchResult 1
    PaperFilter.filter_batch o.aiScore candidates cfg.relevance_threshold
  else
    (KeywordFilter.init cfg.research_keywords cfg.exclude_keywords).filter_batch
      o.searchResult cfg.relevance_threshold

/-- The summarization stage of `daily_task` (main.py lines 114-148): with an
LLM credential, papers at or above the summarize threshold are summarized by
the model and the rest get the fixed low-relevance placeholders; without a
credential every paper gets a truncated abstract plus the fixed English
placeholder. -/
def mainPapersWithSummary (cfg : RunConfig) (o : NetOracles)
    (filtered : List Paper) : List Paper :=
  if cfg.llm_api_key then
    let papers_for_summary := filtered.filter fun p =>
      cfg.summarize_threshold ≤ p.relevance_score.getD 0
    let papers_without_summary := filtered.filter fun p =>
      p.relevance_score.getD 0 < cfg.summarize_threshold
    AbstractSummarizer.summarize_batch o.aiSummary papers_for_summary
      ++ papers_without_summary.map (fun paper =>
        { paper with
            summary_zh := some ("（相关性较低，仅保留基本信息）")
            summary_en := some ("(Low relevance, basic info only)") })
  else
    filtered.map fun paper =>
      { paper with
          summary_zh := some (paper.abstract.take 300 ++ "...")
          summary_en := some ("(No English summary available)") }

/-- `daily_task` (main.py lines 20-160) as a trace semantics: the ordered
list of pipeline stages performed and the document handed to the mail
transport (none when the run ends without a send).  A failed connectivity
probe (lines 35-45) returns before any further work; an empty search result
returns after the search (lines 61-63); an empty filtered list sends the
empty-result notice dated yesterday (lines 105-110); otherwise the digest
over the summarized papers, dated today, is sent (lines 112-155). -/
def daily_task (cfg : RunConfig) (o : NetOracles) :
    List Effect × Option EmailDoc :=
  if !cfg.probeOk then ([Effect.probe], none)
  else
    let papers := o.searchResult
    if papers.isEmpty then ([Effect.probe, Effect.searchStage], none)
    else
      let filtered := mainFilteredPapers cfg o
      if filtered.isEmpty then
        ([Effect.probe, Effect.searchStage, Effect.filterStage,
          Effect.sendEmpty],
          some (EmailDoc.emptyNotice cfg.dateYesterday))
      else
        ([Effect.probe, Effect.searchStage, Effect.filterStage,
          Effect.summarizeStage, Effect.sendDigest],
          some (EmailDoc.digest (mainPapersWithSummary cfg o filtered)
            cfg.dateToday))

/-- A delivered document is not a digest over zero entries. -/
def digestNonempty : EmailDoc → Bool
  | EmailDoc.digest papers _ => !papers.isEmpty
  | EmailDoc.emptyNotice _ => true

theorem countCI_nonneg (text : String) (ks : List String) :
    0 ≤ countCI text ks := Int.ofNat_nonneg _

theorem keyword_fold_count (text : String) (ks : List String) (s : Int) :
    ks.foldl (fun s k => if strContains text k then s + 1 else s) s
      = s + ((ks.filter fun k => strContains text k).length : Int) := by
  induction ks generalizing s with
  | nil => simp
  | cons k rest ih =>
    by_cases h : strContains text k = true
    · simp [List.foldl_cons, List.filter_cons, h, ih]
      omega
    · simp only [List.foldl_cons, List.filter_cons, h]
      simp only [Bool.false_eq_true, if_false, ite_false, ih]

theorem exclusion_fold_floor (text : String) (ks : List String) (s : Int)
    (hs : 0 ≤ s) :
    ks.foldl (fun s k => if strContains text k then max 0 (s - 2) else s) s
      = max 0 (s - 2 * ((ks.filter fun k => strContains text k).length : Int)) := by
  induction ks generalizing s with
  | nil => simp; omega
  | cons k rest ih =>
    by_cases h : strContains text k = true
    · simp only [List.foldl_cons, List.filter_cons, h, if_true, List.length_cons]
      rw [ih (max 0 (s - 2)) (le_max_left 0 (s - 2))]
      have hc : (0 : Int) ≤ ((rest.filter fun k => strContains text k).length : Int) :=
        Int.ofNat_nonneg _
      push_cast
      omega
    · simp only [List.foldl_cons, List.filter_cons, h, Bool.false_eq_true,
        if_false, ite_false]
      exact ih s hs

theorem filter_map_count (text : String) (ks : List String) :
    (((ks.map pyLower).filter fun k => strContains text k).length : Int)
      = ((ks.filter fun k => strContains text (pyLower k)).length : Int) := by
  rw [List.filter_map]
  simp only [List.length_map]
  rfl

/-- C1: for every keyword list `K`, exclusion list `E` and paper record, the
keyword score equals the number of keywords of `K` occurring
case-insensitively in the record's text blob minus twice the number of
exclusion keywords of `E` occurring there, floored at 0 at the end; in
particular the iterative per-exclusion flooring of the source equals the
floor-at-the-end formula and the score is never negative. -/
theorem keywordFilter_score_formula (K E : List String) (paper : Paper) :
    (KeywordFilter.init K E).score_paper paper
      = max 0 (countCI (KeywordFilter.getText paper) K
          - 2 * countCI (KeywordFilter.getText paper) E)
    ∧ 0 ≤ (KeywordFilter.init K E).score_paper paper := by
  have heq : (KeywordFilter.init K E).score_paper paper
      = max 0 (countCI (KeywordFilter.getText paper) K
          - 2 * countCI (KeywordFilter.getText paper) E) := by
    simp only [KeywordFilter.score_paper, KeywordFilter.init]
    rw [keyword_fold_count, exclusion_fold_floor _ _ _ (by
      have := Int.ofNat_nonneg
        (((K.map pyLower).filter fun k =>
          strContains (pyLower (KeywordFilter.getText paper)) k).length)
      omega)]
    rw [filter_map_count, filter_map_count]
    simp only [countCI]
    omega
  exact ⟨heq, by rw [heq]; exact le_max_left _ _⟩

/-- C3 counterexample: with keyword list `["battery"]` and no exclusions, the
record titled "Battery battery research" does NOT score 2: scoring adds one
per configured keyword that is present, not one per occurrence. -/
theorem batteryPaper_score_not_two :
    ¬ ((KeywordFilter.init (["battery"]) ([])).score_paper batteryPaper = 2) := by
  decide

/-- C3 (amended): the record titled "Battery battery research" scores 1 for
keyword list `["battery"]` (one configured keyword is present; multiple
occurrences do not add), so `filter_batch` retains it (score attached) at
threshold 1 and rejects it at threshold 3. -/
theorem batteryPaper_score_one_filtered :
    (KeywordFilter.init (["battery"]) ([])).score_paper batteryPaper = 1
    ∧ (KeywordFilter.init (["battery"]) ([])).filter_batch [batteryPaper] 1
        = [{ batteryPaper with relevance_score := some 1 }]
    ∧ (KeywordFilter.init (["battery"]) ([])).filter_batch [batteryPaper] 3
        = [] := by
  refine ⟨by decide, ?_, by decide⟩
  decide

theorem score_paper_ignores_score (kf : KeywordFilter) (p : Paper) (x : Option Int) :
    kf.score_paper { p with relevance_score := x } = kf.score_paper p := rfl

theorem filter_batch_foldl (kf : KeywordFilter) (t : Int) (papers : List Paper)
    (acc : List Paper) :
    papers.foldl
      (fun acc paper =>
        let score := kf.score_paper paper
        if t ≤ score then acc ++ [{ paper with relevance_score := some score }]
        else acc) acc
      = acc ++ (papers.filter fun p => t ≤ kf.score_paper p).map
          (fun p => { p with relevance_score := some (kf.score_paper p) }) := by
  induction papers generalizing acc with
  | nil => simp
  | cons p rest ih =>
    by_cases h : t ≤ kf.score_paper p
    · simp [List.foldl_cons, List.filter_cons, h, ih]
    · simp [List.foldl_cons, List.filter_cons, h, ih]

theorem filter_batch_eq_filter_map (kf : KeywordFilter) (papers : List Paper)
    (t : Int) :
    kf.filter_batch papers t
      = (papers.filter fun p => t ≤ kf.score_paper p).map
          (fun p => { p with relevance_score := some (kf.score_paper p) }) := by
  simpa using filter_batch_foldl kf t papers []

/-- C5: `filter_batch` returns exactly the sub-list of records whose score is
at least the threshold, each with its score attached, and re-applying it with
the same threshold to its own output returns the output unchanged (scoring
reads only text fields, which filtering does not modify). -/
theorem keywordFilter_batch_exact_and_idem (kf : KeywordFilter)
    (papers : List Paper) (t : Int) :
    kf.filter_batch papers t
      = (papers.filter fun p => t ≤ kf.score_paper p).map
          (fun p => { p with relevance_score := some (kf.score_paper p) })
    ∧ kf.filter_batch (kf.filter_batch papers t) t = kf.filter_batch papers t := by
  refine ⟨filter_batch_eq_filter_map kf papers t, ?_⟩
  rw [filter_batch_eq_filter_map, filter_batch_eq_filter_map]
  rw [List.filter_map, List.map_map]
  have hpred : ((fun p => decide (t ≤ kf.score_paper p)) ∘
      fun p => { p with relevance_score := some (kf.score_paper p) })
      = fun p => decide (t ≤ kf.score_paper p) := by
    funext p
    simp [Function.comp, score_paper_ignores_score]
  rw [hpred, List.filter_filter]
  have hfil : (papers.filter fun p =>
        decide (t ≤ kf.score_paper p) && decide (t ≤ kf.score_paper p))
      = papers.filter fun p => decide (t ≤ kf.score_paper p) := by
    apply List.filter_congr
    intro p _
    exact Bool.and_self _
  rw [hfil]
  apply List.map_congr_left
  intro p _
  simp [Function.comp, score_paper_ignores_score]

/-- C2 is refuted by the code: when no explicit end date is supplied the
date-window prelude of `search` never produces a window at all — the
else-branch at paper_searcher.py line 64 reassigns `from_dt` (discarding any
explicitly supplied start date's pairing) instead of assigning `to_dt`, so
the use of `to_dt` raises `UnboundLocalError` (modelled as `none`) for every
days-ago function, day count and optional start date. -/
theorem search_no_end_date_crashes (daysAgoFn : Nat → String)
    (days_back : Nat) (from_date : Option String) :
    OpenAlexSearcher.computeDateWindow daysAgoFn days_back from_date none
      = none := by
  cases from_date <;> rfl

/-- C7: for every record whose abstract is the empty string, the summarizer
returns exactly the fixed placeholder pair, independent of the model oracle
(no model call influences the result).  The placeholder pair follows the
spec, the source's own branch being syntactically scrambled at
summarizer.py line 93. -/
theorem summarizer_empty_abstract_placeholder
    (model : String → String → String → String → Except String String)
    (paper : Paper) :
    AbstractSummarizer.summarize_paper model { paper with abstract := "" }
      = ("（原文摘要不可用）", "(Abstract not available)") := rfl

/-- C9: when the pre-flight mail-connectivity probe fails, `daily_task`
returns immediately: the trace is exactly the probe, no document is handed
to the mail transport, and in every run the probe is the first stage
performed (before any search work). -/
theorem probe_failure_aborts (cfg : RunConfig) (o : NetOracles) :
    daily_task { cfg with probeOk := false } o = ([Effect.probe], none)
    ∧ (daily_task cfg o).1.head? = some Effect.probe := by
  constructor
  · rfl
  · unfold daily_task
    by_cases h0 : cfg.probeOk
    · by_cases h1 : o.searchResult.isEmpty
      · simp [h0, h1]
      · by_cases h2 : (mainFilteredPapers cfg o).isEmpty <;> simp [h0, h1, h2]
    · simp [h0]

theorem dedup_cond_iff (seen : List String) (q : Paper) :
    (q.id != "" && !(seen.contains q.id)) = true ↔ q.id ≠ "" ∧ q.id ∉ seen := by
  simp

theorem dedupRec_cons_pos (q : Paper) (rest : List Paper) (seen : List String)
    (h : q.id ≠ "" ∧ q.id ∉ seen) :
    dedupRec (q :: rest) seen
      = ((dedupRec rest (q.id :: seen)).1, q :: (dedupRec rest (q.id :: seen)).2) := by
  simp only [dedupRec]
  rw [if_pos ((dedup_cond_iff seen q).mpr h)]

theorem dedupRec_cons_neg (q : Paper) (rest : List Paper) (seen : List String)
    (h : ¬(q.id ≠ "" ∧ q.id ∉ seen)) :
    dedupRec (q :: rest) seen = dedupRec rest seen := by
  simp only [dedupRec]
  rw [if_neg fun hc => h ((dedup_cond_iff seen q).mp hc)]

theorem dedupStep_foldl_eq (l : List Paper) (seen : List String)
    (acc : List Paper) :
    l.foldl OpenAlexSearcher.dedupStep (seen, acc)
      = ((dedupRec l seen).1, acc ++ (dedupRec l seen).2) := by
  induction l generalizing seen acc with
  | nil => simp [dedupRec]
  | cons p rest ih =>
    by_cases h : p.id ≠ "" ∧ p.id ∉ seen
    · rw [List.foldl_cons, dedupRec_cons_pos p rest seen h]
      have hstep : OpenAlexSearcher.dedupStep (seen, acc) p
          = (p.id :: seen, acc ++ [p]) := by
        simp only [OpenAlexSearcher.dedupStep]
        rw [if_pos ((dedup_cond_iff seen p).mpr h)]
      rw [hstep, ih (p.id :: seen) (acc ++ [p])]
      simp
    · rw [List.foldl_cons, dedupRec_cons_neg p rest seen h]
      have hstep : OpenAlexSearcher.dedupStep (seen, acc) p = (seen, acc) := by
        simp only [OpenAlexSearcher.dedupStep]
        rw [if_neg fun hc => h ((dedup_cond_iff seen p).mp hc)]
      rw [hstep, ih seen acc]

theorem aggregate_eq_dedupRec (batches : List (List Paper)) :
    OpenAlexSearcher.aggregate batches = dedupRec batches.flatten [] := by
  unfold OpenAlexSearcher.aggregate
  rw [← List.foldl_flatten, dedupStep_foldl_eq]
  simp

theorem dedupRec_mem (l : List Paper) (seen : List String) (p : Paper)
    (hp : p ∈ (dedupRec l seen).2) :
    p.id ≠ "" ∧ p.id ∉ seen := by
  induction l generalizing seen with
  | nil => simp [dedupRec] at hp
  | cons q rest ih =>
    by_cases h : q.id ≠ "" ∧ q.id ∉ seen
    · rw [dedupRec_cons_pos q rest seen h] at hp
      rcases List.mem_cons.mp hp with hq | hmem
      · subst hq; exact h
      · have hih := ih (q.id :: seen) hmem
        exact ⟨hih.1, fun hmem2 => hih.2 (List.mem_cons_of_mem _ hmem2)⟩
    · rw [dedupRec_cons_neg q rest seen h] at hp
      exact ih seen hp

theorem dedupRec_pairwise (l : List Paper) (seen : List String) :
    (dedupRec l seen).2.Pairwise fun a b => a.id ≠ b.id := by
  induction l generalizing seen with
  | nil => simp [dedupRec]
  | cons q rest ih =>
    by_cases h : q.id ≠ "" ∧ q.id ∉ seen
    · rw [dedupRec_cons_pos q rest seen h]
      refine List.pairwise_cons.mpr ⟨?_, ih (q.id :: seen)⟩
      intro b hb hqb
      exact (dedupRec_mem rest (q.id :: seen) b hb).2 (by simp [← hqb])
    · rw [dedupRec_cons_neg q rest seen h]
      exact ih seen

theorem dedupRec_first_occ (l : List Paper) (seen : List String) (p : Paper)
    (hp : p ∈ (dedupRec l seen).2) :
    (l.filter fun q => q.id == p.id).head? = some p := by
  induction l generalizing seen with
  | nil => simp [dedupRec] at hp
  | cons q rest ih =>
    by_cases h : q.id ≠ "" ∧ q.id ∉ seen
    · rw [dedupRec_cons_pos q rest seen h] at hp
      rcases List.mem_cons.mp hp with hq | hmem
      · subst hq
        simp [List.filter_cons]
      · have hb := dedupRec_mem rest (q.id :: seen) p hmem
        have hne : (q.id == p.id) = false := by
          simp only [beq_eq_false_iff_ne, ne_eq]
          intro hqp
          exact hb.2 (by simp [← hqp])
        simp only [List.filter_cons, hne, Bool.false_eq_true, if_false,
          ite_false]
        exact ih (q.id :: seen) hmem
    · rw [dedupRec_cons_neg q rest seen h] at hp
      have hb := dedupRec_mem rest seen p hp
      have hne : (q.id == p.id) = false := by
        simp only [beq_eq_false_iff_ne, ne_eq]
        intro hqp
        rcases not_and_or.mp h with h1 | h2
        · exact hb.1 (hqp ▸ not_not.mp (by simpa using h1))
        · exact hb.2 (hqp ▸ not_not.mp h2)
      simp only [List.filter_cons, hne, Bool.false_eq_true, if_false,
        ite_false]
      exact ih seen hp

theorem sortByDateDesc_perm (papers : List Paper) :
    (OpenAlexSearcher.sortByDateDesc papers).Perm papers :=
  List.mergeSort_perm papers _

/-- C4: for every sequence of per-keyword result batches, no two records of
the searcher's output share an identifier, and every record kept by the
aggregation loop is the first record bearing its identifier in aggregation
order (the concatenation of the batches). -/
theorem search_dedup_unique_first (batches : List (List Paper)) :
    (OpenAlexSearcher.searchOutput batches).Pairwise (fun a b => a.id ≠ b.id)
    ∧ ((OpenAlexSearcher.aggregate batches).2.all fun p =>
        decide ((batches.flatten.filter fun q => q.id == p.id).head?
          = some p)) = true := by
  constructor
  · have hperm := sortByDateDesc_perm (OpenAlexSearcher.aggregate batches).2
    refine (List.Perm.pairwise_iff (fun hxy => Ne.symm hxy) hperm).mpr ?_
    rw [aggregate_eq_dedupRec]
    exact dedupRec_pairwise batches.flatten []
  · rw [List.all_eq_true]
    intro p hp
    rw [decide_eq_true_eq]
    rw [aggregate_eq_dedupRec] at hp
    exact dedupRec_first_occ batches.flatten [] p hp

/-- C6: the searcher's output is sorted by publication date descending:
every adjacent pair satisfies `publication_date[i] ≥ publication_date[i+1]`
(a record with no date carries the empty string, ordered like any other). -/
theorem search_sorted_by_date (batches : List (List Paper)) :
    List.Chain' (fun a b : Paper => b.publication_date ≤ a.publication_date)
      (OpenAlexSearcher.searchOutput batches) := by
  have hs : List.Pairwise
      (fun a b : Paper =>
        decide (b.publication_date ≤ a.publication_date) = true)
      (List.mergeSort (OpenAlexSearcher.aggregate batches).2
        fun a b : Paper =>
          decide (b.publication_date ≤ a.publication_date)) :=
    List.sorted_mergeSort
      (fun a b c hab hbc => by
        rw [decide_eq_true_eq] at *
        exact le_trans hbc hab)
      (fun a b => by
        rcases le_total a.publication_date b.publication_date with h | h <;>
          simp [h])
      (OpenAlexSearcher.aggregate batches).2
  refine List.Pairwise.chain' (hs.imp ?_)
  intro a b hab
  exact of_decide_eq_true hab

theorem dedupRec_filter_id (l : List Paper) (seen : List String) :
    dedupRec (l.filter fun p => !(p.id == "")) seen = dedupRec l seen := by
  induction l generalizing seen with
  | nil => rfl
  | cons q rest ih =>
    by_cases hq : q.id = ""
    · have hcond : ¬(q.id ≠ "" ∧ q.id ∉ seen) := fun hc => hc.1 hq
      rw [dedupRec_cons_neg q rest seen hcond]
      simp only [List.filter_cons, hq, beq_self_eq_true, Bool.not_true,
        Bool.false_eq_true, if_false, ite_false]
      exact ih seen
    · have hfq : (!(q.id == "")) = true := by simp [hq]
      simp only [List.filter_cons, hfq, if_true]
      by_cases h : q.id ≠ "" ∧ q.id ∉ seen
      · rw [dedupRec_cons_pos _ _ seen h, dedupRec_cons_pos q rest seen h,
          ih (q.id :: seen)]
      · rw [dedupRec_cons_neg _ _ seen h, dedupRec_cons_neg q rest seen h]
        exact ih seen

/-- C10: a raw record whose identifier is missing or empty normalizes to the
empty-string identifier, and such records are dropped from the searcher's
output entirely: every output record has a non-empty identifier, and
deleting the empty-identifier records from the input batches leaves the
output unchanged (they are neither kept nor recorded as seen). -/
theorem search_drops_empty_ids (batches : List (List Paper)) :
    OpenAlexSearcher.normalizeId none = ""
    ∧ OpenAlexSearcher.normalizeId (some ("")) = ""
    ∧ ((OpenAlexSearcher.searchOutput batches).all fun p =>
        !(p.id == "")) = true
    ∧ OpenAlexSearcher.searchOutput
        (batches.map fun b => b.filter fun p => !(p.id == ""))
      = OpenAlexSearcher.searchOutput batches := by
  refine ⟨rfl, rfl, ?_, ?_⟩
  · rw [List.all_eq_true]
    intro p hp
    have hmem : p ∈ (OpenAlexSearcher.aggregate batches).2 :=
      (sortByDateDesc_perm _).mem_iff.mp hp
    rw [aggregate_eq_dedupRec] at hmem
    have := (dedupRec_mem batches.flatten [] p hmem).1
    simp [this]
  · unfold OpenAlexSearcher.searchOutput
    rw [aggregate_eq_dedupRec, aggregate_eq_dedupRec, ← List.filter_flatten,
      dedupRec_filter_id]

theorem charsContain_append (pre needle suf : List Char) :
    charsContain (pre ++ (needle ++ suf)) needle = true := by
  unfold charsContain
  rw [List.any_eq_true]
  refine ⟨pre.length, ?_, ?_⟩
  · rw [List.mem_range, List.length_append]
    omega
  · rw [List.drop_left, List.isPrefixOf_iff_prefix]
    exact List.prefix_append needle suf

theorem strContains_embed (pre mid suf : String) :
    strContains (pre ++ mid ++ suf) mid = true := by
  unfold strContains
  have h1 : (pre ++ mid ++ suf).toList
      = pre.toList ++ (mid.toList ++ suf.toList) := by
    simp [String.toList, String.data_append, List.append_assoc]
  rw [h1]
  exact charsContain_append pre.toList mid.toList suf.toList

theorem length_filter_compl (l : List Paper) (t : Int) :
    (l.filter fun p => t ≤ p.relevance_score.getD 0).length
      + (l.filter fun p => p.relevance_score.getD 0 < t).length
      = l.length := by
  induction l with
  | nil => rfl
  | cons a rest ih =>
    by_cases h : t ≤ a.relevance_score.getD 0
    · have h2 : ¬(a.relevance_score.getD 0 < t) := not_lt.mpr h
      simp [List.filter_cons, h, h2]
      omega
    · have h2 : a.relevance_score.getD 0 < t := not_le.mp h
      simp [List.filter_cons, h, h2]
      omega

theorem papersWithSummary_length (cfg : RunConfig) (o : NetOracles)
    (filtered : List Paper) :
    (mainPapersWithSummary cfg o filtered).length = filtered.length := by
  unfold mainPapersWithSummary
  by_cases h : cfg.llm_api_key = true
  · simp only [h, if_true, List.length_append, List.length_map,
      AbstractSummarizer.summarize_batch]
    exact length_filter_compl filtered cfg.summarize_threshold
  · simp [h]

/-- C8: the notification stage never receives a digest with zero embedded
entries; when the filtered list is empty (probe passed, search non-empty)
the document sent is exactly the no-matches notice, and the no-matches body
contains the supplied date string. -/
theorem notify_empty_result (cfg : RunConfig) (o : NetOracles)
    (p : Paper) (ps : List Paper) (d : String) :
    Option.all digestNonempty (daily_task cfg o).2 = true
    ∧ ((daily_task { cfg with probeOk := true }
          { o with searchResult := p :: ps }).2
        = some (EmailDoc.emptyNotice cfg.dateYesterday)
      ↔ mainFilteredPapers { cfg with probeOk := true }
          { o with searchResult := p :: ps } = [])
    ∧ strContains (EmailSender.send_empty_result_html d) d = true := by
  refine ⟨?_, ?_, ?_⟩
  · unfold daily_task
    by_cases h0 : cfg.probeOk = true
    · by_cases h1 : o.searchResult.isEmpty = true
      · simp [h0, h1]
      · by_cases h2 : (mainFilteredPapers cfg o).isEmpty = true
        · simp [h0, h1, h2, digestNonempty]
        · have hne : mainFilteredPapers cfg o ≠ [] := by
            intro hE
            rw [hE] at h2
            exact h2 rfl
          have hlen := papersWithSummary_length cfg o (mainFilteredPapers cfg o)
          have hne2 : mainPapersWithSummary cfg o (mainFilteredPapers cfg o)
              ≠ [] := by
            intro hE
            apply hne
            rw [hE] at hlen
            exact (List.eq_nil_of_length_eq_zero hlen.symm)
          simp [h0, h1, h2, digestNonempty, hne2]
    · simp [h0]
  · unfold daily_task
    by_cases h2 : mainFilteredPapers { cfg with probeOk := true }
        { o with searchResult := p :: ps } = []
    · simp [h2]
    · simp [h2]
  · unfold EmailSender.send_empty_result_html
    exact strContains_embed _ d _
